import Mathlib

/-!
Verification of the tile-cache materialization engine in src/main.js
(jackbuehner/tile-downloader).

The source is a browser script.  We shallowly embed the parts of the code the
claims concern:

* tileRangeForExtent (src/main.js lines 223-237): extent to tile range.
* toArcGISNames (lines 246-251): the ArcGIS cache key namer.
* totalTiles (lines 284-288): progress denominator.
* the per-tile materialize task body (lines 312-381): existence probe, fetch,
  format detection, world file write, counter increments, catch handler.
* the per-level bounded pool (line 306, p-limit cap 10) and level sequencing
  (line 386, await Promise.all).

JavaScript numbers are modelled as rationals, machine-level floating point
rounding aside: every concrete value appearing in a theorem below is exactly
representable as a binary double, so rational and double arithmetic agree on
them.  String rendering of numbers is modelled by functions below that agree
with JavaScript on the values they are applied to.
-/

set_option maxRecDepth 4096

/-- Decimal and hexadecimal digit characters, as produced by the JavaScript
Number.prototype.toString radix rendering (digits 0-9 then lowercase a-f). -/
def jsDigitChar (n : Nat) : Char := Nat.digitChar n

/-- Fuel-driven rendering of a natural number in base 16, lowercase, most
significant digit first, mirroring the JavaScript expression
y.toString(16).  Structural recursion on fuel keeps it kernel-reducible. -/
def hexDigitsAux : Nat → Nat → List Char
  | 0, _ => []
  | fuel + 1, n =>
    if n < 16 then [jsDigitChar n]
    else hexDigitsAux fuel (n / 16) ++ [jsDigitChar (n % 16)]

/-- Hex digit list of a natural number, as JavaScript n.toString(16). -/
def hexDigits (n : Nat) : List Char := hexDigitsAux (n + 1) n

/-- Fuel-driven rendering of a natural number in base 10, mirroring the
JavaScript expression z.toString(). -/
def decDigitsAux : Nat → Nat → List Char
  | 0, _ => []
  | fuel + 1, n =>
    if n < 10 then [jsDigitChar n]
    else decDigitsAux fuel (n / 10) ++ [jsDigitChar (n % 10)]

/-- Decimal digit list of a natural number, as JavaScript n.toString(). -/
def decDigits (n : Nat) : List Char := decDigitsAux (n + 1) n

/-- String.prototype.padStart with a pad character, on character lists. -/
def padStart (len : Nat) (c : Char) (l : List Char) : List Char :=
  List.replicate (len - l.length) c ++ l

/-- The result of toArcGISNames: the L, R and C name components. -/
structure ArcGISNames where
  L : String
  R : String
  C : String
deriving DecidableEq, Repr

/-- Embedding of toArcGISNames (src/main.js lines 246-251): converts z, x, y
to the ArcGIS tile cache naming convention.  L is the letter L followed by
the level padded to two decimal digits; R is the letter R followed by y in
hexadecimal padded to eight digits and uppercased; C likewise for x. -/
def toArcGISNames (z x y : Nat) : ArcGISNames :=
  { L := String.mk ('L' :: padStart 2 '0' (decDigits z))
    R := String.mk ('R' :: (padStart 8 '0' (hexDigits y)).map Char.toUpper)
    C := String.mk ('C' :: (padStart 8 '0' (hexDigits x)).map Char.toUpper) }

/-- An axis-aligned extent, the bounding box of the area of interest. -/
structure Extent where
  xmin : ℚ
  ymin : ℚ
  xmax : ℚ
  ymax : ℚ
deriving DecidableEq, Repr

/-- An inclusive tile index rectangle for one level. -/
structure TileRange where
  minX : ℤ
  maxX : ℤ
  minY : ℤ
  maxY : ℤ
deriving DecidableEq, Repr

/-- Embedding of tileRangeForExtent (src/main.js lines 223-237).  The grid
origin and tile size are globals read from the tile grid in the source and
are passed here as parameters.  Math.floor on a real argument is the floor
into the integers. -/
def tileRangeForExtent (extent : Extent) (resolution originX originY tileSize : ℚ) :
    TileRange :=
  { minX := ⌊(extent.xmin - originX) / (resolution * tileSize)⌋
    maxX := ⌊(extent.xmax - originX) / (resolution * tileSize)⌋
    minY := ⌊(originY - extent.ymax) / (resolution * tileSize)⌋
    maxY := ⌊(originY - extent.ymin) / (resolution * tileSize)⌋ }

/-- Decimal string of a natural number, as JavaScript default rendering. -/
def natDecString (n : Nat) : String := String.mk (decDigits n)

/-- Default JavaScript rendering of an integer-valued number, as produced by
Array.prototype.join: optional minus sign followed by decimal digits. -/
def intJsString (i : ℤ) : String :=
  if i < 0 then "-" ++ natDecString i.natAbs else natDecString i.natAbs

/-- Default JavaScript rendering of a number.  Integer values print with no
decimal point; values with a finite decimal expansion print with the shortest
fraction (no trailing zeros).  This agrees with JavaScript on every value the
theorems below apply it to (all exactly representable as binary doubles with
short decimal forms); values with no short decimal expansion are outside the
modelled domain and render as the empty string. -/
def jsNumToString (q : ℚ) : String :=
  if q.den = 1 then intJsString q.num
  else
    match ((List.range 40).map (fun i => i + 1)).find?
        (fun k => (q * 10 ^ k).den == 1) with
    | some k =>
      let m := (|q| * 10 ^ k).num.natAbs
      (if q < 0 then "-" else "") ++ natDecString (m / 10 ^ k) ++ "." ++
        String.mk (padStart k '0' (decDigits (m % 10 ^ k)))
    | none => ""

/-- The integer of six-decimal fixed rounding: the numerator of q rounded to
six decimal places, round half away from zero for nonnegative q.  Models the
rounding of Number.prototype.toFixed(6) on the nonnegative values used here,
where decimal and binary rounding agree. -/
def toFixed6Int (q : ℚ) : ℤ := ⌊q * 1000000 + 1 / 2⌋

/-- Model of resolution.toFixed(6) in the source: the decimal rendering with
exactly six digits after the point. -/
def toFixed6 (q : ℚ) : String :=
  natDecString ((toFixed6Int q).toNat / 1000000) ++ "." ++
    String.mk (padStart 6 '0' (decDigits ((toFixed6Int q).toNat % 1000000)))

/-- The numeric value denoted by the string toFixed6 q, which JavaScript
recovers when the unary minus coerces that string back to a number. -/
def toFixed6Val (q : ℚ) : ℚ := (toFixed6Int q : ℚ) / 1000000

/-- Embedding of the world file entries built at src/main.js lines 360-367.
The first and fourth entries deserve care: the first is the string
resolution.toFixed(6); the fourth is written -resolution.toFixed(6) in the
source, which JavaScript parses as the unary negation of the string produced
by toFixed, so it is the number obtained by coercing that string back and
negating it, later rendered by Array.prototype.join with the default number
formatting (so -1 rather than -1.000000).  The fifth and sixth entries are
plain numbers, also rendered with the default formatting. -/
def worldFileLines (resolution originX originY : ℚ) (x y : ℤ) (tileSize : ℚ) :
    List String :=
  [ toFixed6 resolution,
    "0",
    "0",
    jsNumToString (-(toFixed6Val resolution)),
    jsNumToString (originX + x * resolution * tileSize),
    jsNumToString (originY - y * resolution * tileSize) ]

/-- The world file content: the six entries joined with newlines, as the
source builds it with Array.prototype.join. -/
def worldFileContent (resolution originX originY : ℚ) (x y : ℤ) (tileSize : ℚ) :
    String :=
  String.intercalate "\n" (worldFileLines resolution originX originY x y tileSize)

/-- One level of detail of the pyramid descriptor. -/
structure Lod where
  level : Nat
  resolution : ℚ
  scale : ℚ
deriving DecidableEq, Repr

/-- The number of tiles of an inclusive tile range, as the source computes it
at lines 286 and 299. -/
def tileCount (r : TileRange) : ℤ := (r.maxX - r.minX + 1) * (r.maxY - r.minY + 1)

/-- Embedding of the totalTiles computation (src/main.js lines 284-288): a
reduce over the levels of detail with initial accumulator 0, adding the tile
count of each level range. -/
def totalTiles (lods : List Lod) (bbox : Extent) (originX originY tileSize : ℚ) : ℤ :=
  lods.foldl
    (fun acc lod =>
      acc + tileCount (tileRangeForExtent bbox lod.resolution originX originY tileSize))
    0

/-- Mirror of the formulas in the specification, section 4.1: minX, maxX from
the extent x bounds against the origin, minY, maxY from the flipped y axis,
each a floor of a quotient by the tile ground width, with no clamping. -/
def rangeForSpec (extent : Extent) (resolution originX originY tileSize : ℚ) :
    TileRange :=
  { minX := ⌊(extent.xmin - originX) / (resolution * tileSize)⌋
    maxX := ⌊(extent.xmax - originX) / (resolution * tileSize)⌋
    minY := ⌊(originY - extent.ymax) / (resolution * tileSize)⌋
    maxY := ⌊(originY - extent.ymin) / (resolution * tileSize)⌋ }

/-- The numeric value of a hexadecimal digit character, accepting digits,
lowercase and uppercase letters; other characters map to 0. -/
def hexVal (c : Char) : Nat :=
  if c.isDigit then c.toNat - '0'.toNat
  else if 'a' ≤ c ∧ c ≤ 'f' then c.toNat - 'a'.toNat + 10
  else if 'A' ≤ c ∧ c ≤ 'F' then c.toNat - 'A'.toNat + 10
  else 0

/-- The numeric value of a decimal digit character. -/
def decVal (c : Char) : Nat := c.toNat - '0'.toNat

/-- Value of a character list read as a big-endian hexadecimal numeral. -/
def parseHex (l : List Char) : Nat := l.foldl (fun a c => 16 * a + hexVal c) 0

/-- Value of a character list read as a big-endian decimal numeral. -/
def parseDec (l : List Char) : Nat := l.foldl (fun a c => 10 * a + decVal c) 0

/-- An uppercase hexadecimal digit: a decimal digit or a letter A to F. -/
def isUpperHexDigit (c : Char) : Bool := c.isDigit || ('A' ≤ c && c ≤ 'F')

/-- A persisted file: a tile image with its body bytes, or a text file such
as a world file. -/
inductive FileData where
  | image (body : String)
  | text (content : String)
deriving DecidableEq, Repr

/-- One level directory: an association list from file name to content, in
creation order. -/
abbrev FileSys := List (String × FileData)

/-- Whether a file of the given name exists, as observed by the probe
getFileHandle with create false. -/
def containsKey (fs : FileSys) (k : String) : Bool := fs.any (fun e => e.1 == k)

/-- getFileHandle with create true followed by a full write: an existing
entry has its content replaced, otherwise the entry is appended. -/
def writeFile (k : String) (v : FileData) (fs : FileSys) : FileSys :=
  if containsKey fs k then fs.map (fun e => if e.1 == k then (k, v) else e)
  else fs ++ [(k, v)]

/-- The parts of a fetch Response the task reads: the ok flag, the
Content-Type header, and the body. -/
structure JSResponse where
  ok : Bool
  contentType : Option String
  body : String
deriving DecidableEq, Repr

/-- The environment one materialize task runs in: the fetch result (none
models a network transport error, in which case fetch throws) and whether
the image and world file persistence steps throw (filesystem failures).
The existence probes cannot throw: the source attaches a catch that turns
any probe failure into false. -/
structure TileEnv where
  response : Option JSResponse
  imageWriteThrows : Bool
  worldWriteThrows : Bool
deriving DecidableEq, Repr

/-- The per-tile constants of one task: tile coordinate and the grid
parameters read from the metadata. -/
structure TileConfig where
  level : Nat
  x : Nat
  y : Nat
  resolution : ℚ
  originX : ℚ
  originY : ℚ
  tileSize : ℚ
deriving DecidableEq, Repr

/-- What one materialize task did: the directory afterwards, whether a
network request was issued, whether the catch handler ran (console.warn
Missing tile), and how much each progress counter was incremented. -/
structure MaterializeResult where
  files : FileSys
  fetched : Bool
  warnedMissing : Bool
  incDownloadedTiles : Nat
  incDownloadedLevelTiles : Nat
deriving DecidableEq, Repr

/-- The file name for this tile with the given extension, as the source
arrow function filePath builds it from the R and C name parts. -/
def tileFilePath (cfg : TileConfig) (ext : String) : String :=
  (toArcGISNames cfg.level cfg.x cfg.y).R ++ (toArcGISNames cfg.level cfg.x cfg.y).C
    ++ "." ++ ext

/-- The world file content for this tile. -/
def tileWorldContent (cfg : TileConfig) : String :=
  worldFileContent cfg.resolution cfg.originX cfg.originY cfg.x cfg.y cfg.tileSize

/-- The unconditional tail of the task body (src/main.js lines 353-377):
write the world file (extension pgw when the detected type is png, else
jgw, also when no image was found or downloaded and the type is null), then
increment downloadedTiles and downloadedLevelTiles.  A filesystem throw
during this step reaches the catch handler after the file was created but
before the counters are touched. -/
def worldStep (cfg : TileConfig) (fs : FileSys) (fetched : Bool)
    (imageFileType : Option String) (env : TileEnv) : MaterializeResult :=
  if env.worldWriteThrows then
    { files := writeFile (tileFilePath cfg (if imageFileType = some "png" then "pgw" else "jgw"))
        (FileData.text "") fs
      fetched := fetched, warnedMissing := true
      incDownloadedTiles := 0, incDownloadedLevelTiles := 0 }
  else
    { files := writeFile (tileFilePath cfg (if imageFileType = some "png" then "pgw" else "jgw"))
        (FileData.text (tileWorldContent cfg)) fs
      fetched := fetched, warnedMissing := false
      incDownloadedTiles := 1, incDownloadedLevelTiles := 1 }

/-- Embedding of one materialize task (src/main.js lines 312-381): probe for
an existing png then jpeg; if neither exists, fetch; on an ok response
detect the format from the Content-Type header (png exactly when it equals
image/png, else the jpeg fallback) and persist the body; then always run the
world file step.  A thrown exception anywhere lands in the catch handler,
which only logs; a non-ok response is not an exception and falls through to
the world file step with a null detected type. -/
def materializeTile (cfg : TileConfig) (dir : FileSys) (env : TileEnv) :
    MaterializeResult :=
  let pngExists := containsKey dir (tileFilePath cfg "png")
  let jpegExists := containsKey dir (tileFilePath cfg "jpeg")
  if pngExists || jpegExists then
    worldStep cfg dir false (if pngExists then some "png" else some "jpeg") env
  else
    match env.response with
    | none =>
      { files := dir, fetched := true, warnedMissing := true
        incDownloadedTiles := 0, incDownloadedLevelTiles := 0 }
    | some resp =>
      if resp.ok then
        if env.imageWriteThrows then
          { files := writeFile
              (tileFilePath cfg (if resp.contentType = some "image/png" then "png" else "jpeg"))
              (FileData.image "") dir
            fetched := true, warnedMissing := true
            incDownloadedTiles := 0, incDownloadedLevelTiles := 0 }
        else
          worldStep cfg
            (writeFile
              (tileFilePath cfg (if resp.contentType = some "image/png" then "png" else "jpeg"))
              (FileData.image resp.body) dir)
            true
            (some (if resp.contentType = some "image/png" then "png" else "jpeg")) env
      else
        worldStep cfg dir true none env

/-- Modelled from the spec: the admission events of the bounded concurrency
pool.  The pool itself is the external p-limit library (not part of this
repository); the specification, section 5, describes its discipline: at most
10 tasks in flight, the next queued task starts only when a running one
completes.  A trace interleaves task start and finish events, each tagged
with the level whose loop submitted the task and a task index. -/
inductive PoolEv where
  | start (lvl idx : Nat)
  | finish (lvl idx : Nat)
deriving DecidableEq, Repr

/-- The level that submitted the task of an event. -/
def PoolEv.lvl : PoolEv → Nat
  | .start l _ => l
  | .finish l _ => l

/-- Modelled from the spec: whether a trace respects the admission
discipline of a pool of the given capacity, starting from the given number
of in-flight tasks: a task starts only while fewer than cap are in flight
(the eleventh submitted task waits for a completion), and a finish needs a
running task. -/
def poolOk (cap : Nat) : Nat → List PoolEv → Bool
  | _, [] => true
  | a, PoolEv.start _ _ :: tr => decide (a < cap) && poolOk cap (a + 1) tr
  | a, PoolEv.finish _ _ :: tr => decide (0 < a) && poolOk cap (a - 1) tr

/-- The number of tasks in flight after processing a trace, starting from
a given count. -/
def activeAfter (a : Nat) (tr : List PoolEv) : Nat :=
  tr.foldl
    (fun n e => match e with
      | PoolEv.start _ _ => n + 1
      | PoolEv.finish _ _ => n - 1) a

theorem foldl_add_tileCounts {α : Type} (g : α → ℤ) (l : List α) (acc : ℤ) :
    l.foldl (fun a lod => a + g lod) acc = acc + (l.map g).sum := by
  induction l generalizing acc with
  | nil => simp
  | cons head tail ih => simp [ih, add_assoc]

/-- C3: the extent-to-range mapper at origin (0,0), tile size 256,
resolution 1 and extent (100,100,600,600) does NOT return the rectangle
(0,2,0,2) claimed by the specification example: with the origin at y = 0 the
extent lies north of the origin, so the rows are negative; the code returns
minY = -3 and maxY = -1. -/
theorem tileRangeForExtent_example_counterexample :
    tileRangeForExtent ⟨100, 100, 600, 600⟩ 1 0 0 256 =
      { minX := 0, maxX := 2, minY := -3, maxY := -1 } ∧
    tileRangeForExtent ⟨100, 100, 600, 600⟩ 1 0 0 256 ≠
      { minX := 0, maxX := 2, minY := 0, maxY := 2 } := by
  with_unfolding_all decide

/-- C3 amended: for origin (0,0), tile size 256, resolution 1.0 and extent
(xmin=100, ymin=100, xmax=600, ymax=600) the extent-to-range mapper returns
the tile rectangle minX=0, maxX=2, minY=-3, maxY=-1. -/
theorem tileRangeForExtent_example :
    tileRangeForExtent ⟨100, 100, 600, 600⟩ 1 0 0 256 =
      { minX := 0, maxX := 2, minY := -3, maxY := -1 } := by
  with_unfolding_all decide

/-- C4: for every extent with xmin at most xmax and ymin at most ymax, every
positive resolution and positive tile size, the extent-to-range mapper
computes exactly the floor formulas of the specification (no clamping of
negative or out-of-coverage indices appears), and its result satisfies
minX at most maxX and minY at most maxY.  The mapper is a pure total
function of its arguments, so determinism and totality hold by
construction. -/
theorem tileRangeForExtent_spec (e : Extent) (res originX originY ts : ℚ)
    (hres : 0 < res) (hts : 0 < ts)
    (hx : e.xmin ≤ e.xmax) (hy : e.ymin ≤ e.ymax) :
    tileRangeForExtent e res originX originY ts = rangeForSpec e res originX originY ts ∧
    (tileRangeForExtent e res originX originY ts).minX ≤
      (tileRangeForExtent e res originX originY ts).maxX ∧
    (tileRangeForExtent e res originX originY ts).minY ≤
      (tileRangeForExtent e res originX originY ts).maxY := by
  have hw : 0 < res * ts := mul_pos hres hts
  refine ⟨rfl, ?_, ?_⟩
  · exact Int.floor_le_floor ((div_le_div_iff_of_pos_right hw).mpr (sub_le_sub_right hx originX))
  · exact Int.floor_le_floor ((div_le_div_iff_of_pos_right hw).mpr (sub_le_sub_left hy originY))

/-- Witness for C4 at a concrete input. -/
theorem tileRangeForExtent_spec_witness :
    tileRangeForExtent ⟨-300, 50, 700, 900⟩ 2 10 20 256 =
      rangeForSpec ⟨-300, 50, 700, 900⟩ 2 10 20 256 ∧
    (tileRangeForExtent ⟨-300, 50, 700, 900⟩ 2 10 20 256).minX ≤
      (tileRangeForExtent ⟨-300, 50, 700, 900⟩ 2 10 20 256).maxX ∧
    (tileRangeForExtent ⟨-300, 50, 700, 900⟩ 2 10 20 256).minY ≤
      (tileRangeForExtent ⟨-300, 50, 700, 900⟩ 2 10 20 256).maxY :=
  tileRangeForExtent_spec ⟨-300, 50, 700, 900⟩ 2 10 20 256
    (by decide) (by decide) (by decide) (by decide)

/-- C6: the totalTiles reduce equals the sum, over all levels of detail, of
the tile count of the range computed independently for that level.  In the
source this value is computed before the level loop starts, so it is fixed
before any tile fetch begins. -/
theorem totalTiles_eq_sum (lods : List Lod) (bbox : Extent)
    (originX originY ts : ℚ) :
    totalTiles lods bbox originX originY ts =
      (lods.map
        (fun lod => tileCount (tileRangeForExtent bbox lod.resolution originX originY ts))).sum := by
  simpa [totalTiles] using
    foldl_add_tileCounts
      (fun lod : Lod => tileCount (tileRangeForExtent bbox lod.resolution originX originY ts))
      lods 0

/-- C2: the world file written for tile level 0, x=1, y=1 at resolution 1.0,
origin (0,0), tile size 256 is NOT the six claimed lines 1.000000, 0, 0,
-1.000000, 256.000000, -256.000000: in the source the fourth entry is the
unary negation of the toFixed string, a number rendered as -1, and the fifth
and sixth entries are plain numbers rendered as 256 and -256. -/
theorem worldFileContent_example_counterexample :
    worldFileContent 1 0 0 1 1 256 = "1.000000\n0\n0\n-1\n256\n-256" ∧
    worldFileContent 1 0 0 1 1 256 ≠
      "1.000000\n0\n0\n-1.000000\n256.000000\n-256.000000" := by
  with_unfolding_all decide

/-- C2 amended: the georeference sidecar consists of exactly six lines in
order: resolution fixed to six decimals; 0; 0; the negated numeric value of
that fixed string, rendered as a plain JavaScript number; upper-left
x = originX + x*resolution*tileSize and upper-left
y = originY - y*resolution*tileSize, both rendered as plain JavaScript
numbers; in particular for level 0, x=1, y=1, resolution 1.0, origin (0,0),
tile size 256 the content is the lines 1.000000, 0, 0, -1, 256, -256. -/
theorem worldFileLines_amended (res originX originY : ℚ) (x y : ℤ) (ts : ℚ) :
    worldFileLines res originX originY x y ts =
      [toFixed6 res, "0", "0", jsNumToString (-(toFixed6Val res)),
        jsNumToString (originX + x * res * ts),
        jsNumToString (originY - y * res * ts)] ∧
    (worldFileLines res originX originY x y ts).length = 6 ∧
    worldFileContent 1 0 0 1 1 256 = "1.000000\n0\n0\n-1\n256\n-256" := by
  refine ⟨rfl, rfl, ?_⟩
  with_unfolding_all decide

theorem hexVal_toUpper_digit : ∀ d : Nat, d < 16 →
    hexVal (Char.toUpper (jsDigitChar d)) = d := by decide

theorem decVal_digit : ∀ d : Nat, d < 10 → decVal (jsDigitChar d) = d := by decide

theorem isDigit_digit : ∀ d : Nat, d < 10 → (jsDigitChar d).isDigit = true := by decide

theorem isUpperHexDigit_toUpper_digit : ∀ d : Nat, d < 16 →
    isUpperHexDigit (Char.toUpper (jsDigitChar d)) = true := by decide

theorem parseHexFold_upper_hexDigitsAux :
    ∀ fuel n acc, n < fuel →
      ((hexDigitsAux fuel n).map Char.toUpper).foldl (fun a c => 16 * a + hexVal c) acc =
        16 ^ (hexDigitsAux fuel n).length * acc + n := by
  intro fuel
  induction fuel with
  | zero => intro n acc h; exact absurd h (Nat.not_lt_zero n)
  | succ fuel ih =>
    intro n acc h
    by_cases h16 : n < 16
    · simp [hexDigitsAux, h16, hexVal_toUpper_digit n h16]
    · have hn0 : 0 < n := by omega
      have hdiv : n / 16 < fuel :=
        lt_of_lt_of_le (Nat.div_lt_self hn0 (by norm_num)) (by omega)
      have hmod : n % 16 < 16 := Nat.mod_lt _ (by norm_num)
      simp only [hexDigitsAux, if_neg h16, List.map_append, List.foldl_append,
        List.length_append, List.map_cons, List.map_nil, List.foldl_cons,
        List.foldl_nil, List.length_cons, List.length_nil]
      rw [ih _ _ hdiv, hexVal_toUpper_digit _ hmod]
      have hpow : (16 : Nat) ^ ((hexDigitsAux fuel (n / 16)).length + (0 + 1)) * acc =
          16 * (16 ^ (hexDigitsAux fuel (n / 16)).length * acc) := by ring
      rw [hpow]
      generalize (16 : Nat) ^ (hexDigitsAux fuel (n / 16)).length * acc = A
      omega

theorem parseDecFold_decDigitsAux :
    ∀ fuel n acc, n < fuel →
      (decDigitsAux fuel n).foldl (fun a c => 10 * a + decVal c) acc =
        10 ^ (decDigitsAux fuel n).length * acc + n := by
  intro fuel
  induction fuel with
  | zero => intro n acc h; exact absurd h (Nat.not_lt_zero n)
  | succ fuel ih =>
    intro n acc h
    by_cases h10 : n < 10
    · simp [decDigitsAux, h10, decVal_digit n h10]
    · have hn0 : 0 < n := by omega
      have hdiv : n / 10 < fuel :=
        lt_of_lt_of_le (Nat.div_lt_self hn0 (by norm_num)) (by omega)
      have hmod : n % 10 < 10 := Nat.mod_lt _ (by norm_num)
      simp only [decDigitsAux, if_neg h10, List.foldl_append, List.length_append,
        List.foldl_cons, List.foldl_nil, List.length_cons, List.length_nil]
      rw [ih _ _ hdiv, decVal_digit _ hmod]
      have hpow : (10 : Nat) ^ ((decDigitsAux fuel (n / 10)).length + (0 + 1)) * acc =
          10 * (10 ^ (decDigitsAux fuel (n / 10)).length * acc) := by ring
      rw [hpow]
      generalize (10 : Nat) ^ (decDigitsAux fuel (n / 10)).length * acc = A
      omega

theorem foldl_hex_replicate_zero :
    ∀ k, (List.replicate k '0').foldl (fun a c => 16 * a + hexVal c) 0 = 0 := by
  intro k
  induction k with
  | zero => rfl
  | succ k ih => simpa [List.replicate_succ, hexVal] using ih

theorem foldl_dec_replicate_zero :
    ∀ k, (List.replicate k '0').foldl (fun a c => 10 * a + decVal c) 0 = 0 := by
  intro k
  induction k with
  | zero => rfl
  | succ k ih => simpa [List.replicate_succ, decVal] using ih

theorem parseHex_paddedUpperHex (n : Nat) :
    parseHex ((padStart 8 '0' (hexDigits n)).map Char.toUpper) = n := by
  unfold parseHex padStart
  rw [List.map_append, List.map_replicate]
  have h0 : Char.toUpper '0' = '0' := by decide
  rw [h0, List.foldl_append, foldl_hex_replicate_zero]
  simpa using parseHexFold_upper_hexDigitsAux (n + 1) n 0 (Nat.lt_succ_self n)

theorem parseDec_padded (n : Nat) :
    parseDec (padStart 2 '0' (decDigits n)) = n := by
  unfold parseDec padStart
  rw [List.foldl_append, foldl_dec_replicate_zero]
  simpa using parseDecFold_decDigitsAux (n + 1) n 0 (Nat.lt_succ_self n)

theorem hexDigitsAux_length_le :
    ∀ fuel n k, 0 < k → n < 16 ^ k → n < fuel → (hexDigitsAux fuel n).length ≤ k := by
  intro fuel
  induction fuel with
  | zero => intro n k _ _ h; exact absurd h (Nat.not_lt_zero n)
  | succ fuel ih =>
    intro n k hk hpow h
    by_cases h16 : n < 16
    · simp only [hexDigitsAux, if_pos h16, List.length_cons, List.length_nil]
      omega
    · have hk2 : 2 ≤ k := by
        by_contra hlt
        have hk1 : k = 1 := by omega
        subst hk1
        simp only [pow_one] at hpow
        omega
      have hdivpow : n / 16 < 16 ^ (k - 1) := by
        rw [Nat.div_lt_iff_lt_mul (by norm_num : (0:Nat) < 16)]
        calc n < 16 ^ k := hpow
          _ = 16 ^ (k - 1) * 16 := by
              rw [← pow_succ]
              congr 1
              omega
      have hdiv : n / 16 < fuel :=
        lt_of_lt_of_le (Nat.div_lt_self (by omega) (by norm_num)) (by omega)
      have := ih (n / 16) (k - 1) (by omega) hdivpow hdiv
      simp only [hexDigitsAux, if_neg h16, List.length_append, List.length_cons,
        List.length_nil]
      omega

theorem decDigitsAux_length_le :
    ∀ fuel n k, 0 < k → n < 10 ^ k → n < fuel → (decDigitsAux fuel n).length ≤ k := by
  intro fuel
  induction fuel with
  | zero => intro n k _ _ h; exact absurd h (Nat.not_lt_zero n)
  | succ fuel ih =>
    intro n k hk hpow h
    by_cases h10 : n < 10
    · simp only [decDigitsAux, if_pos h10, List.length_cons, List.length_nil]
      omega
    · have hk2 : 2 ≤ k := by
        by_contra hlt
        have hk1 : k = 1 := by omega
        subst hk1
        simp only [pow_one] at hpow
        omega
      have hdivpow : n / 10 < 10 ^ (k - 1) := by
        rw [Nat.div_lt_iff_lt_mul (by norm_num : (0:Nat) < 10)]
        calc n < 10 ^ k := hpow
          _ = 10 ^ (k - 1) * 10 := by
              rw [← pow_succ]
              congr 1
              omega
      have hdiv : n / 10 < fuel :=
        lt_of_lt_of_le (Nat.div_lt_self (by omega) (by norm_num)) (by omega)
      have := ih (n / 10) (k - 1) (by omega) hdivpow hdiv
      simp only [decDigitsAux, if_neg h10, List.length_append, List.length_cons,
        List.length_nil]
      omega

theorem padStart_length_of_le (k : Nat) (c : Char) (l : List Char)
    (h : l.length ≤ k) : (padStart k c l).length = k := by
  simp only [padStart, List.length_append, List.length_replicate]
  omega

theorem hexDigits_length_le_8 (n : Nat) (h : n < 2 ^ 32) :
    (hexDigits n).length ≤ 8 := by
  have : n < 16 ^ 8 := by
    calc n < 2 ^ 32 := h
      _ = 16 ^ 8 := by norm_num
  exact hexDigitsAux_length_le (n + 1) n 8 (by norm_num) this (Nat.lt_succ_self n)

theorem decDigits_length_le_2 (n : Nat) (h : n < 100) :
    (decDigits n).length ≤ 2 := by
  have : n < 10 ^ 2 := by omega
  exact decDigitsAux_length_le (n + 1) n 2 (by norm_num) this (Nat.lt_succ_self n)

theorem hexDigitsAux_chars :
    ∀ fuel n c, c ∈ hexDigitsAux fuel n → ∃ d, d < 16 ∧ c = jsDigitChar d := by
  intro fuel
  induction fuel with
  | zero => intro n c hc; simp [hexDigitsAux] at hc
  | succ fuel ih =>
    intro n c hc
    by_cases h16 : n < 16
    · simp only [hexDigitsAux, if_pos h16, List.mem_singleton] at hc
      exact ⟨n, h16, hc⟩
    · simp only [hexDigitsAux, if_neg h16, List.mem_append, List.mem_singleton] at hc
      rcases hc with hc | hc
      · exact ih _ _ hc
      · exact ⟨n % 16, Nat.mod_lt _ (by norm_num), hc⟩

theorem decDigitsAux_chars :
    ∀ fuel n c, c ∈ decDigitsAux fuel n → ∃ d, d < 10 ∧ c = jsDigitChar d := by
  intro fuel
  induction fuel with
  | zero => intro n c hc; simp [decDigitsAux] at hc
  | succ fuel ih =>
    intro n c hc
    by_cases h10 : n < 10
    · simp only [decDigitsAux, if_pos h10, List.mem_singleton] at hc
      exact ⟨n, h10, hc⟩
    · simp only [decDigitsAux, if_neg h10, List.mem_append, List.mem_singleton] at hc
      rcases hc with hc | hc
      · exact ih _ _ hc
      · exact ⟨n % 10, Nat.mod_lt _ (by norm_num), hc⟩

theorem upperHexTail_chars (n : Nat) (c : Char)
    (hc : c ∈ (padStart 8 '0' (hexDigits n)).map Char.toUpper) :
    isUpperHexDigit c = true := by
  simp only [padStart, List.map_append, List.map_replicate, List.mem_append,
    List.mem_replicate, List.mem_map] at hc
  rcases hc with ⟨_, hc⟩ | ⟨a, ha, hc⟩
  · subst hc; decide
  · obtain ⟨d, hd, rfl⟩ := hexDigitsAux_chars _ _ _ ha
    subst hc
    exact isUpperHexDigit_toUpper_digit d hd

theorem decTail_chars (n : Nat) (c : Char)
    (hc : c ∈ padStart 2 '0' (decDigits n)) : c.isDigit = true := by
  simp only [padStart, List.mem_append, List.mem_replicate] at hc
  rcases hc with ⟨_, hc⟩ | hc
  · subst hc; decide
  · obtain ⟨d, hd, rfl⟩ := decDigitsAux_chars _ _ _ hc
    exact isDigit_digit d hd

/-- C5: for every level below 100 and x, y below 2 to the 32, the cache key
namer returns L as the letter L followed by exactly two decimal digits whose
value is the level, R as the letter R followed by exactly eight uppercase
hexadecimal digits whose value is y, and C likewise for x; the mapping is
injective over that index space (it is deterministic because it is a pure
function); and toArcGISNames 3 10 255 yields L03, R000000FF, C0000000A. -/
theorem toArcGISNames_spec :
    (∀ z x y : Nat, z < 100 → x < 2 ^ 32 → y < 2 ^ 32 →
      ((toArcGISNames z x y).L.data.length = 3 ∧
        (toArcGISNames z x y).L.data.head? = some 'L' ∧
        (toArcGISNames z x y).L.data.tail.all Char.isDigit = true ∧
        parseDec (toArcGISNames z x y).L.data.tail = z) ∧
      ((toArcGISNames z x y).R.data.length = 9 ∧
        (toArcGISNames z x y).R.data.head? = some 'R' ∧
        (toArcGISNames z x y).R.data.tail.all isUpperHexDigit = true ∧
        parseHex (toArcGISNames z x y).R.data.tail = y) ∧
      ((toArcGISNames z x y).C.data.length = 9 ∧
        (toArcGISNames z x y).C.data.head? = some 'C' ∧
        (toArcGISNames z x y).C.data.tail.all isUpperHexDigit = true ∧
        parseHex (toArcGISNames z x y).C.data.tail = x)) ∧
    (∀ z x y z2 x2 y2 : Nat, z < 100 → x < 2 ^ 32 → y < 2 ^ 32 →
      z2 < 100 → x2 < 2 ^ 32 → y2 < 2 ^ 32 →
      toArcGISNames z x y = toArcGISNames z2 x2 y2 → z = z2 ∧ x = x2 ∧ y = y2) ∧
    toArcGISNames 3 10 255 = { L := "L03", R := "R000000FF", C := "C0000000A" } := by
  refine ⟨?_, ?_, by decide⟩
  · intro z x y hz hx hy
    refine ⟨⟨?_, rfl, ?_, parseDec_padded z⟩,
      ⟨?_, rfl, ?_, parseHex_paddedUpperHex y⟩,
      ⟨?_, rfl, ?_, parseHex_paddedUpperHex x⟩⟩
    · show ('L' :: padStart 2 '0' (decDigits z)).length = 3
      rw [List.length_cons, padStart_length_of_le 2 '0' _ (decDigits_length_le_2 z hz)]
    · exact List.all_eq_true.mpr fun c hc => decTail_chars z c hc
    · show ('R' :: (padStart 8 '0' (hexDigits y)).map Char.toUpper).length = 9
      rw [List.length_cons, List.length_map,
        padStart_length_of_le 8 '0' _ (hexDigits_length_le_8 y hy)]
    · exact List.all_eq_true.mpr fun c hc => upperHexTail_chars y c hc
    · show ('C' :: (padStart 8 '0' (hexDigits x)).map Char.toUpper).length = 9
      rw [List.length_cons, List.length_map,
        padStart_length_of_le 8 '0' _ (hexDigits_length_le_8 x hx)]
    · exact List.all_eq_true.mpr fun c hc => upperHexTail_chars x c hc
  · intro z x y z2 x2 y2 _ _ _ _ _ _ h
    have hL : ('L' :: padStart 2 '0' (decDigits z)) =
        ('L' :: padStart 2 '0' (decDigits z2)) :=
      congrArg String.data (congrArg ArcGISNames.L h)
    have hR : ('R' :: (padStart 8 '0' (hexDigits y)).map Char.toUpper) =
        ('R' :: (padStart 8 '0' (hexDigits y2)).map Char.toUpper) :=
      congrArg String.data (congrArg ArcGISNames.R h)
    have hC : ('C' :: (padStart 8 '0' (hexDigits x)).map Char.toUpper) =
        ('C' :: (padStart 8 '0' (hexDigits x2)).map Char.toUpper) :=
      congrArg String.data (congrArg ArcGISNames.C h)
    refine ⟨?_, ?_, ?_⟩
    · rw [← parseDec_padded z, ← parseDec_padded z2, List.cons_injective.eq_iff.mp hL]
    · rw [← parseHex_paddedUpperHex x, ← parseHex_paddedUpperHex x2]
      unfold parseHex
      rw [List.cons_injective.eq_iff.mp hC]
    · rw [← parseHex_paddedUpperHex y, ← parseHex_paddedUpperHex y2]
      unfold parseHex
      rw [List.cons_injective.eq_iff.mp hR]

/-- Witness for C5 at the concrete indices of the specification example. -/
theorem toArcGISNames_spec_witness :
    parseHex (toArcGISNames 3 10 255).R.data.tail = 255 ∧
    (3 = 3 ∧ 10 = 10 ∧ 255 = 255) :=
  ⟨(toArcGISNames_spec.1 3 10 255 (by decide) (by decide) (by decide)).2.1.2.2.2,
    toArcGISNames_spec.2.1 3 10 255 3 10 255 (by decide) (by decide) (by decide)
      (by decide) (by decide) (by decide) rfl⟩

theorem string_append_left_cancel : ∀ t a b : String, t ++ a = t ++ b → a = b := by
  intro ⟨t⟩ ⟨a⟩ ⟨b⟩ h
  have hd : t ++ a = t ++ b := congrArg String.data h
  exact congrArg String.mk (List.append_cancel_left hd)

theorem tileFilePath_ne (cfg : TileConfig) {a b : String} (h : a ≠ b) :
    tileFilePath cfg a ≠ tileFilePath cfg b := by
  intro he
  unfold tileFilePath at he
  exact h (string_append_left_cancel _ _ _ he)

theorem containsKey_map_rewrite (k k2 : String) (v : FileData) (fs : FileSys) :
    containsKey (fs.map (fun e => if e.1 == k then (k, v) else e)) k2 =
      containsKey fs k2 := by
  induction fs with
  | nil => rfl
  | cons e fs ih =>
    unfold containsKey at *
    rw [List.map_cons, List.any_cons, List.any_cons, ih]
    congr 1
    by_cases he : e.1 = k
    · rw [if_pos (beq_iff_eq.mpr he)]
      show (k == k2) = (e.1 == k2)
      rw [he]
    · rw [if_neg (by simpa using he)]

theorem containsKey_writeFile (k k2 : String) (v : FileData) (fs : FileSys) :
    containsKey (writeFile k v fs) k2 = (k2 == k || containsKey fs k2) := by
  unfold writeFile
  split
  · rename_i hc
    rw [containsKey_map_rewrite]
    by_cases he : k2 = k
    · subst he
      simp [hc]
    · simp [beq_eq_false_iff_ne.mpr he]
  · simp only [containsKey, List.any_append, List.any_cons, List.any_nil]
    by_cases he : k2 = k
    · subst he
      simp
    · simp [beq_eq_false_iff_ne.mpr he, beq_eq_false_iff_ne.mpr (Ne.symm he)]

theorem mem_writeFile_key (k : String) (v : FileData) (fs : FileSys) :
    ∀ e ∈ writeFile k v fs, e.1 = k → e = (k, v) := by
  unfold writeFile
  split
  · rename_i hc
    intro e he _
    rw [List.mem_map] at he
    obtain ⟨a, ha, hae⟩ := he
    by_cases h : a.1 = k
    · rw [if_pos (beq_iff_eq.mpr h)] at hae
      exact hae.symm
    · rw [if_neg (by simpa using h)] at hae
      subst hae
      rename_i hk
      exact absurd hk h
  · rename_i hc
    intro e he hk
    rw [List.mem_append, List.mem_singleton] at he
    rcases he with he | he
    · exfalso
      have : containsKey fs k = true := by
        unfold containsKey
        exact List.any_eq_true.mpr ⟨e, he, beq_iff_eq.mpr hk⟩
      simp [this] at hc
    · exact he

theorem writeFile_idem (k : String) (v : FileData) (fs : FileSys) :
    writeFile k v (writeFile k v fs) = writeFile k v fs := by
  have hc : containsKey (writeFile k v fs) k = true := by
    rw [containsKey_writeFile]
    simp
  conv_lhs => rw [writeFile]
  rw [if_pos hc]
  have hmap : ∀ e ∈ writeFile k v fs, (if e.1 == k then (k, v) else e) = e := by
    intro e he
    by_cases h : e.1 = k
    · rw [if_pos (beq_iff_eq.mpr h)]
      exact (mem_writeFile_key k v fs e he h).symm
    · rw [if_neg (by simpa using h)]
  calc (writeFile k v fs).map (fun e => if e.1 == k then (k, v) else e)
      = (writeFile k v fs).map id := List.map_congr_left hmap
    _ = writeFile k v fs := List.map_id _

/-- C1 evidence: a materialize task whose fetch returns a non-success
response (HTTP 404, ok false) for tile (level 2, x 5, y 5) over an empty
level directory DOES create a file: the world file step still runs with a
null detected type and writes the sidecar R00000005C00000005.jgw; the catch
handler does not run (no warning is logged) and both progress counters are
incremented.  The run does proceed to the remaining tiles.  This theorem
evaluates the embedded task at the failing input. -/
theorem materialize_http404_writes_sidecar :
    materializeTile ⟨2, 5, 5, 1, 0, 0, 256⟩ []
        ⟨some ⟨false, none, ""⟩, false, false⟩ =
      { files := [("R00000005C00000005.jgw",
          FileData.text "1.000000\n0\n0\n-1\n1280\n-1280")],
        fetched := true, warnedMissing := false,
        incDownloadedTiles := 1, incDownloadedLevelTiles := 1 } := by
  with_unfolding_all decide

/-- C7 counterexample: after a first run whose fetch returned HTTP 404 the
directory holds only the orphan jgw sidecar, so a second run over the same
directory with no external change issues a network request again: the claim
that the second run always issues zero additional network requests fails. -/
theorem materialize_refetch_after_404 :
    (materializeTile ⟨2, 5, 5, 1, 0, 0, 256⟩
        (materializeTile ⟨2, 5, 5, 1, 0, 0, 256⟩ []
          ⟨some ⟨false, none, ""⟩, false, false⟩).files
        ⟨some ⟨false, none, ""⟩, false, false⟩).fetched = true := by
  with_unfolding_all decide

/-- The world file step increments both counters exactly once when it does
not throw, and not at all when it throws. -/
theorem worldStep_counters (cfg : TileConfig) (fs : FileSys) (f : Bool)
    (ift : Option String) (env : TileEnv) :
    (worldStep cfg fs f ift env).incDownloadedTiles =
        cond (worldStep cfg fs f ift env).warnedMissing 0 1 ∧
    (worldStep cfg fs f ift env).incDownloadedLevelTiles =
        cond (worldStep cfg fs f ift env).warnedMissing 0 1 := by
  unfold worldStep
  split <;> exact ⟨rfl, rfl⟩

/-- C10: for every tile task, each of the two counter increments is 0 when
the catch handler ran (an exception was thrown during materialization, be it
a transport error or a filesystem write failure) and exactly 1 when the task
body completed without throwing. -/
theorem materializeTile_counters (cfg : TileConfig) (dir : FileSys) (env : TileEnv) :
    (materializeTile cfg dir env).incDownloadedTiles =
        cond (materializeTile cfg dir env).warnedMissing 0 1 ∧
    (materializeTile cfg dir env).incDownloadedLevelTiles =
        cond (materializeTile cfg dir env).warnedMissing 0 1 := by
  unfold materializeTile
  dsimp only
  split
  · exact worldStep_counters ..
  · cases henv : env.response with
    | none => simp only [henv]; exact ⟨rfl, rfl⟩
    | some resp =>
      simp only [henv]
      by_cases hok : resp.ok = true
      · rw [if_pos hok]
        by_cases hw : env.imageWriteThrows = true
        · rw [if_pos hw]; exact ⟨rfl, rfl⟩
        · rw [if_neg hw]; exact worldStep_counters ..
      · rw [if_neg hok]; exact worldStep_counters ..

/-- A task over a directory that already holds the png image skips the
network and only rewrites the pgw sidecar. -/
theorem materialize_existing_png (cfg : TileConfig) (fs : FileSys) (env : TileEnv)
    (hw : env.worldWriteThrows = false)
    (hpng : containsKey fs (tileFilePath cfg "png") = true) :
    materializeTile cfg fs env =
      { files := writeFile (tileFilePath cfg "pgw")
          (FileData.text (tileWorldContent cfg)) fs
        fetched := false, warnedMissing := false
        incDownloadedTiles := 1, incDownloadedLevelTiles := 1 } := by
  unfold materializeTile
  dsimp only
  rw [hpng]
  unfold worldStep
  rw [hw]
  simp

/-- A task over a directory that already holds the jpeg image (and no png)
skips the network and only rewrites the jgw sidecar. -/
theorem materialize_existing_jpeg (cfg : TileConfig) (fs : FileSys) (env : TileEnv)
    (hw : env.worldWriteThrows = false)
    (hpng : containsKey fs (tileFilePath cfg "png") = false)
    (hjpeg : containsKey fs (tileFilePath cfg "jpeg") = true) :
    materializeTile cfg fs env =
      { files := writeFile (tileFilePath cfg "jgw")
          (FileData.text (tileWorldContent cfg)) fs
        fetched := false, warnedMissing := false
        incDownloadedTiles := 1, incDownloadedLevelTiles := 1 } := by
  unfold materializeTile
  dsimp only
  rw [hpng, hjpeg]
  unfold worldStep
  rw [hw]
  simp

/-- A task over a fresh tile with an ok response writes the image file for
the detected format and the matching sidecar. -/
theorem materialize_fetch_ok (cfg : TileConfig) (dir : FileSys) (env : TileEnv)
    (resp : JSResponse)
    (hpng : containsKey dir (tileFilePath cfg "png") = false)
    (hjpeg : containsKey dir (tileFilePath cfg "jpeg") = false)
    (hresp : env.response = some resp) (hok : resp.ok = true)
    (himg : env.imageWriteThrows = false) (hw : env.worldWriteThrows = false) :
    materializeTile cfg dir env =
      { files := writeFile
          (tileFilePath cfg
            (if resp.contentType = some "image/png" then "pgw" else "jgw"))
          (FileData.text (tileWorldContent cfg))
          (writeFile
            (tileFilePath cfg
              (if resp.contentType = some "image/png" then "png" else "jpeg"))
            (FileData.image resp.body) dir)
        fetched := true, warnedMissing := false
        incDownloadedTiles := 1, incDownloadedLevelTiles := 1 } := by
  unfold materializeTile
  dsimp only
  rw [hpng, hjpeg, hresp]
  simp only [Bool.or_self, Bool.false_eq_true, if_false, hok, if_true, himg]
  unfold worldStep
  rw [hw]
  by_cases hct : resp.contentType = some "image/png"
  · simp [hct]
  · simp [hct]

/-- C7 amended: whenever the first run materialized an image for the tile
(the fetch succeeded, or an image already existed), a second run over the
resulting directory issues no network request (the probe finds the image)
and leaves the files unchanged. -/
theorem materializeTile_idempotent (cfg : TileConfig) (dir : FileSys)
    (env1 env2 : TileEnv)
    (hw1 : env1.worldWriteThrows = false) (hw2 : env2.worldWriteThrows = false)
    (hcase :
      (containsKey dir (tileFilePath cfg "png") = true ∨
        containsKey dir (tileFilePath cfg "jpeg") = true) ∨
      (containsKey dir (tileFilePath cfg "png") = false ∧
        containsKey dir (tileFilePath cfg "jpeg") = false ∧
        env1.imageWriteThrows = false ∧
        ∃ resp, env1.response = some resp ∧ resp.ok = true)) :
    (materializeTile cfg (materializeTile cfg dir env1).files env2).fetched = false ∧
    (materializeTile cfg (materializeTile cfg dir env1).files env2).files =
      (materializeTile cfg dir env1).files := by
  have hne : ∀ (a b : String), a ≠ b →
      (tileFilePath cfg a == tileFilePath cfg b) = false :=
    fun a b h => beq_eq_false_iff_ne.mpr (tileFilePath_ne cfg h)
  by_cases hpng : containsKey dir (tileFilePath cfg "png") = true
  · -- a png image already exists: both runs take the probe branch with pgw
    rw [materialize_existing_png cfg dir env1 hw1 hpng]
    have hpng2 : containsKey
        (writeFile (tileFilePath cfg "pgw") (FileData.text (tileWorldContent cfg)) dir)
        (tileFilePath cfg "png") = true := by
      rw [containsKey_writeFile, hpng]
      simp
    rw [materialize_existing_png cfg _ env2 hw2 hpng2]
    exact ⟨rfl, writeFile_idem _ _ _⟩
  · have hpngf : containsKey dir (tileFilePath cfg "png") = false := by
      simpa using hpng
    by_cases hjpeg : containsKey dir (tileFilePath cfg "jpeg") = true
    · -- a jpeg image already exists: both runs take the probe branch with jgw
      rw [materialize_existing_jpeg cfg dir env1 hw1 hpngf hjpeg]
      have hpng2 : containsKey
          (writeFile (tileFilePath cfg "jgw") (FileData.text (tileWorldContent cfg)) dir)
          (tileFilePath cfg "png") = false := by
        rw [containsKey_writeFile, hpngf, hne "png" "jgw" (by decide)]
        rfl
      have hjpeg2 : containsKey
          (writeFile (tileFilePath cfg "jgw") (FileData.text (tileWorldContent cfg)) dir)
          (tileFilePath cfg "jpeg") = true := by
        rw [containsKey_writeFile, hjpeg]
        simp
      rw [materialize_existing_jpeg cfg _ env2 hw2 hpng2 hjpeg2]
      exact ⟨rfl, writeFile_idem _ _ _⟩
    · -- no image yet: the first run fetched with success
      have hjpegf : containsKey dir (tileFilePath cfg "jpeg") = false := by
        simpa using hjpeg
      rcases hcase with (h | h) | ⟨_, _, himg, resp, hresp, hok⟩
      · exact absurd h hpng
      · exact absurd h hjpeg
      rw [materialize_fetch_ok cfg dir env1 resp hpngf hjpegf hresp hok himg hw1]
      by_cases hct : resp.contentType = some "image/png"
      · simp only [if_pos hct]
        have hpng2 : containsKey
            (writeFile (tileFilePath cfg "pgw") (FileData.text (tileWorldContent cfg))
              (writeFile (tileFilePath cfg "png") (FileData.image resp.body) dir))
            (tileFilePath cfg "png") = true := by
          rw [containsKey_writeFile, containsKey_writeFile, hpngf]
          simp
        rw [materialize_existing_png cfg _ env2 hw2 hpng2]
        exact ⟨rfl, writeFile_idem _ _ _⟩
      · simp only [if_neg hct]
        have hpng2 : containsKey
            (writeFile (tileFilePath cfg "jgw") (FileData.text (tileWorldContent cfg))
              (writeFile (tileFilePath cfg "jpeg") (FileData.image resp.body) dir))
            (tileFilePath cfg "png") = false := by
          rw [containsKey_writeFile, containsKey_writeFile, hpngf,
            hne "png" "jgw" (by decide), hne "png" "jpeg" (by decide)]
          rfl
        have hjpeg2 : containsKey
            (writeFile (tileFilePath cfg "jgw") (FileData.text (tileWorldContent cfg))
              (writeFile (tileFilePath cfg "jpeg") (FileData.image resp.body) dir))
            (tileFilePath cfg "jpeg") = true := by
          rw [containsKey_writeFile, containsKey_writeFile]
          simp
        rw [materialize_existing_jpeg cfg _ env2 hw2 hpng2 hjpeg2]
        exact ⟨rfl, writeFile_idem _ _ _⟩

/-- C9: for a successfully fetched tile (ok response, no throws, fresh tile
names), the persisted image is png exactly when the Content-Type header
equals image/png and jpeg otherwise, and the sidecar extension pairs with
the format: pgw for the png case, jgw for the jpeg case. -/
theorem materializeTile_format (cfg : TileConfig) (dir : FileSys) (env : TileEnv)
    (resp : JSResponse)
    (hresp : env.response = some resp) (hok : resp.ok = true)
    (himg : env.imageWriteThrows = false) (hwf : env.worldWriteThrows = false)
    (hpng : containsKey dir (tileFilePath cfg "png") = false)
    (hjpeg : containsKey dir (tileFilePath cfg "jpeg") = false)
    (hpgw : containsKey dir (tileFilePath cfg "pgw") = false)
    (hjgw : containsKey dir (tileFilePath cfg "jgw") = false) :
    containsKey (materializeTile cfg dir env).files (tileFilePath cfg "png") =
        decide (resp.contentType = some "image/png") ∧
    containsKey (materializeTile cfg dir env).files (tileFilePath cfg "jpeg") =
        !decide (resp.contentType = some "image/png") ∧
    containsKey (materializeTile cfg dir env).files (tileFilePath cfg "pgw") =
        decide (resp.contentType = some "image/png") ∧
    containsKey (materializeTile cfg dir env).files (tileFilePath cfg "jgw") =
        !decide (resp.contentType = some "image/png") := by
  have hne : ∀ (a b : String), a ≠ b →
      (tileFilePath cfg a == tileFilePath cfg b) = false :=
    fun a b h => beq_eq_false_iff_ne.mpr (tileFilePath_ne cfg h)
  unfold materializeTile
  dsimp only
  rw [hpng, hjpeg, hresp]
  simp only [Bool.or_self, Bool.false_eq_true, if_false]
  rw [hok]
  simp only [if_true]
  rw [himg]
  simp only [Bool.false_eq_true, if_false]
  unfold worldStep
  rw [hwf]
  simp only [Bool.false_eq_true, if_false]
  by_cases hct : resp.contentType = some "image/png"
  · simp only [hct, if_pos rfl, decide_eq_true_eq]
    simp only [containsKey_writeFile, hpng, hjpeg, hpgw, hjgw,
      hne "png" "pgw" (by decide), hne "jpeg" "pgw" (by decide),
      hne "jgw" "pgw" (by decide), hne "jpeg" "png" (by decide),
      hne "pgw" "png" (by decide), hne "jgw" "png" (by decide)]
    simp [hct]
    exact ⟨⟨tileFilePath_ne cfg (by decide), tileFilePath_ne cfg (by decide)⟩,
      tileFilePath_ne cfg (by decide), tileFilePath_ne cfg (by decide)⟩
  · simp only [if_neg hct]
    have hctd : decide (resp.contentType = some "image/png") = false := by
      simpa using hct
    simp only [containsKey_writeFile, hpng, hjpeg, hpgw, hjgw, hctd,
      hne "png" "jgw" (by decide), hne "jpeg" "jgw" (by decide),
      hne "pgw" "jgw" (by decide),
      hne "png" "jpeg" (by decide), hne "pgw" "jpeg" (by decide),
      hne "jgw" "jpeg" (by decide)]
    simp
    exact ⟨tileFilePath_ne cfg (by decide), tileFilePath_ne cfg (by decide)⟩

/-- Witness for C7 at a concrete input: a first run that fetched a png. -/
theorem materializeTile_idempotent_witness :
    (materializeTile ⟨2, 5, 5, 1, 0, 0, 256⟩
        (materializeTile ⟨2, 5, 5, 1, 0, 0, 256⟩ []
          ⟨some ⟨true, some "image/png", "B"⟩, false, false⟩).files
        ⟨none, false, false⟩).fetched = false ∧
    (materializeTile ⟨2, 5, 5, 1, 0, 0, 256⟩
        (materializeTile ⟨2, 5, 5, 1, 0, 0, 256⟩ []
          ⟨some ⟨true, some "image/png", "B"⟩, false, false⟩).files
        ⟨none, false, false⟩).files =
      (materializeTile ⟨2, 5, 5, 1, 0, 0, 256⟩ []
          ⟨some ⟨true, some "image/png", "B"⟩, false, false⟩).files :=
  materializeTile_idempotent ⟨2, 5, 5, 1, 0, 0, 256⟩ []
    ⟨some ⟨true, some "image/png", "B"⟩, false, false⟩ ⟨none, false, false⟩
    rfl rfl
    (Or.inr ⟨rfl, rfl, rfl, ⟨⟨true, some "image/png", "B"⟩, rfl, rfl⟩⟩)

/-- Witness for C9 at a concrete input with a png content type. -/
theorem materializeTile_format_witness :
    containsKey
        (materializeTile ⟨2, 5, 5, 1, 0, 0, 256⟩ []
          ⟨some ⟨true, some "image/png", "B"⟩, false, false⟩).files
        (tileFilePath ⟨2, 5, 5, 1, 0, 0, 256⟩ "png") =
      decide ((⟨true, some "image/png", "B"⟩ : JSResponse).contentType = some "image/png") ∧
    containsKey
        (materializeTile ⟨2, 5, 5, 1, 0, 0, 256⟩ []
          ⟨some ⟨true, some "image/png", "B"⟩, false, false⟩).files
        (tileFilePath ⟨2, 5, 5, 1, 0, 0, 256⟩ "jpeg") =
      !decide ((⟨true, some "image/png", "B"⟩ : JSResponse).contentType = some "image/png") ∧
    containsKey
        (materializeTile ⟨2, 5, 5, 1, 0, 0, 256⟩ []
          ⟨some ⟨true, some "image/png", "B"⟩, false, false⟩).files
        (tileFilePath ⟨2, 5, 5, 1, 0, 0, 256⟩ "pgw") =
      decide ((⟨true, some "image/png", "B"⟩ : JSResponse).contentType = some "image/png") ∧
    containsKey
        (materializeTile ⟨2, 5, 5, 1, 0, 0, 256⟩ []
          ⟨some ⟨true, some "image/png", "B"⟩, false, false⟩).files
        (tileFilePath ⟨2, 5, 5, 1, 0, 0, 256⟩ "jgw") =
      !decide ((⟨true, some "image/png", "B"⟩ : JSResponse).contentType = some "image/png") :=
  materializeTile_format ⟨2, 5, 5, 1, 0, 0, 256⟩ []
    ⟨some ⟨true, some "image/png", "B"⟩, false, false⟩ ⟨true, some "image/png", "B"⟩
    rfl rfl rfl rfl rfl rfl rfl rfl

theorem activeAfter_start (a : Nat) (l i : Nat) (tr : List PoolEv) :
    activeAfter a (PoolEv.start l i :: tr) = activeAfter (a + 1) tr := rfl

theorem activeAfter_finish (a : Nat) (l i : Nat) (tr : List PoolEv) :
    activeAfter a (PoolEv.finish l i :: tr) = activeAfter (a - 1) tr := rfl

/-- Along any valid trace the in-flight count never exceeds the capacity. -/
theorem poolOk_prefix_bound (cap : Nat) :
    ∀ (p q : List PoolEv) (a : Nat), a ≤ cap → poolOk cap a (p ++ q) = true →
      activeAfter a p ≤ cap := by
  intro p
  induction p with
  | nil => intro q a ha _; exact ha
  | cons e p ih =>
    intro q a ha hok
    cases e with
    | start l i =>
      rw [List.cons_append, show poolOk cap a (PoolEv.start l i :: (p ++ q)) =
        (decide (a < cap) && poolOk cap (a + 1) (p ++ q)) from rfl,
        Bool.and_eq_true, decide_eq_true_eq] at hok
      rw [activeAfter_start]
      exact ih q (a + 1) (by omega) hok.2
    | finish l i =>
      rw [List.cons_append, show poolOk cap a (PoolEv.finish l i :: (p ++ q)) =
        (decide (0 < a) && poolOk cap (a - 1) (p ++ q)) from rfl,
        Bool.and_eq_true, decide_eq_true_eq] at hok
      rw [activeAfter_finish]
      exact ih q (a - 1) (by omega) hok.2

/-- Valid traces compose when the second starts where the first ended. -/
theorem poolOk_append (cap : Nat) :
    ∀ (t1 t2 : List PoolEv) (a : Nat), poolOk cap a t1 = true →
      poolOk cap (activeAfter a t1) t2 = true →
      poolOk cap a (t1 ++ t2) = true := by
  intro t1
  induction t1 with
  | nil => intro t2 a _ h2; exact h2
  | cons e t1 ih =>
    intro t2 a h1 h2
    cases e with
    | start l i =>
      rw [show poolOk cap a (PoolEv.start l i :: t1) =
        (decide (a < cap) && poolOk cap (a + 1) t1) from rfl, Bool.and_eq_true] at h1
      rw [activeAfter_start] at h2
      rw [List.cons_append, show poolOk cap a (PoolEv.start l i :: (t1 ++ t2)) =
        (decide (a < cap) && poolOk cap (a + 1) (t1 ++ t2)) from rfl, Bool.and_eq_true]
      exact ⟨h1.1, ih t2 (a + 1) h1.2 h2⟩
    | finish l i =>
      rw [show poolOk cap a (PoolEv.finish l i :: t1) =
        (decide (0 < a) && poolOk cap (a - 1) t1) from rfl, Bool.and_eq_true] at h1
      rw [activeAfter_finish] at h2
      rw [List.cons_append, show poolOk cap a (PoolEv.finish l i :: (t1 ++ t2)) =
        (decide (0 < a) && poolOk cap (a - 1) (t1 ++ t2)) from rfl, Bool.and_eq_true]
      exact ⟨h1.1, ih t2 (a - 1) h1.2 h2⟩

/-- The concatenation of per-level traces, each valid and fully drained
(the source awaits Promise.all before leaving a level), is a valid trace. -/
theorem poolOk_flatten (cap : Nat) :
    ∀ lts : List (List PoolEv),
      (∀ tr ∈ lts, poolOk cap 0 tr = true) →
      (∀ tr ∈ lts, activeAfter 0 tr = 0) →
      poolOk cap 0 lts.flatten = true := by
  intro lts
  induction lts with
  | nil => intro _ _; rfl
  | cons t lts ih =>
    intro hok hbal
    rw [List.flatten_cons]
    have hb : activeAfter 0 t = 0 := hbal t (List.mem_cons_self t lts)
    refine poolOk_append cap t lts.flatten 0 (hok t (List.mem_cons_self t lts)) ?_
    rw [hb]
    exact ih (fun tr htr => hok tr (List.mem_cons_of_mem t htr))
      (fun tr htr => hbal tr (List.mem_cons_of_mem t htr))

/-- A trace whose events all carry one level is trivially level-monotone. -/
theorem pairwise_const_level (c : Nat) :
    ∀ l : List PoolEv, (∀ e ∈ l, PoolEv.lvl e = c) →
      l.Pairwise (fun e1 e2 => PoolEv.lvl e1 ≤ PoolEv.lvl e2) := by
  intro l
  induction l with
  | nil => intro _; exact List.Pairwise.nil
  | cons e l ih =>
    intro h
    refine List.Pairwise.cons ?_ (ih fun x hx => h x (List.mem_cons_of_mem e hx))
    intro x hx
    rw [h e (List.mem_cons_self e l), h x (List.mem_cons_of_mem e hx)]

/-- C8: in a run trace obtained by concatenating the per-level traces in
level order, where each per-level trace respects the pool discipline of
capacity 10 and is fully drained before the next level begins (the await of
Promise.all at the end of each level iteration), at no point are more than
10 tasks in flight, and the events are monotone in level: every event of
level n+1, in particular every task start, comes after every event of level
n, so level n+1 tasks are never submitted before level n has settled. -/
theorem run_pool_bound_and_level_order (lts : List (List PoolEv))
    (hok : ∀ tr ∈ lts, poolOk 10 0 tr = true)
    (hbal : ∀ tr ∈ lts, activeAfter 0 tr = 0)
    (htag : ∀ (i : Nat) (h : i < lts.length), ∀ e ∈ lts.get ⟨i, h⟩, PoolEv.lvl e = i) :
    (∀ p q, lts.flatten = p ++ q → activeAfter 0 p ≤ 10) ∧
    lts.flatten.Pairwise (fun e1 e2 => PoolEv.lvl e1 ≤ PoolEv.lvl e2) := by
  constructor
  · intro p q hpq
    have hjoin : poolOk 10 0 lts.flatten = true := poolOk_flatten 10 lts hok hbal
    rw [hpq] at hjoin
    exact poolOk_prefix_bound 10 p q 0 (by omega) hjoin
  · rw [List.pairwise_flatten]
    constructor
    · intro l' hl'
      obtain ⟨i, hget⟩ := List.mem_iff_get.mp hl'
      exact pairwise_const_level i.1 l' fun e he =>
        htag i.1 i.2 e (by rw [show (⟨i.1, i.2⟩ : Fin lts.length) = i from rfl, hget]; exact he)
    · rw [List.pairwise_iff_get]
      intro i j hij x hx y hy
      have hxl : PoolEv.lvl x = i.1 :=
        htag i.1 i.2 x (by rw [show (⟨i.1, i.2⟩ : Fin lts.length) = i from rfl]; exact hx)
      have hyl : PoolEv.lvl y = j.1 :=
        htag j.1 j.2 y (by rw [show (⟨j.1, j.2⟩ : Fin lts.length) = j from rfl]; exact hy)
      rw [hxl, hyl]
      exact le_of_lt hij

/-- Witness for C8 on a concrete two-level run trace. -/
theorem run_pool_bound_witness :
    (∀ p q,
        ([[PoolEv.start 0 0, PoolEv.finish 0 0],
          [PoolEv.start 1 0, PoolEv.finish 1 0]] : List (List PoolEv)).flatten =
          p ++ q → activeAfter 0 p ≤ 10) ∧
    ([[PoolEv.start 0 0, PoolEv.finish 0 0],
      [PoolEv.start 1 0, PoolEv.finish 1 0]] : List (List PoolEv)).flatten.Pairwise
        (fun e1 e2 => PoolEv.lvl e1 ≤ PoolEv.lvl e2) :=
  run_pool_bound_and_level_order
    [[PoolEv.start 0 0, PoolEv.finish 0 0], [PoolEv.start 1 0, PoolEv.finish 1 0]]
    (by decide) (by decide) (by decide)
